import Mathlib

/-!
Verification development for the extended-precision timestamp subsystem of
remacs (`src/rust_src/src/time.rs`), shallowly embedded in Lean.

Machine integers (`EmacsInt` = `i64`, `c_int` = `i32`, `time_t` = `i64`) are
modelled as `ℤ`; none of the modelled operations can wrap in practice for
inputs in the original machine ranges, and the fixnum-overflow checks of the
source are modelled explicitly.  Rust's truncating `/` and `%` on signed
integers are `Int.tdiv` / `Int.tmod`; arithmetic right shift `>> 16` is
`>>> 16` on `ℤ` (floor division by `2^16`); `& 0xFFFF` is `% 65536`
(Euclidean remainder, which agrees with the two's-complement mask).

`f64` values are modelled exactly over `ℚ` (every finite `f64` is rational;
the range-check bounds `±2^77` are exactly representable `f64` values, so the
range guard is exact).  The `dresult` output parameter of
`decode_time_components` (the `f64` seconds count used only by `float-time`)
is not needed by any theorem below and is not modelled.
-/

namespace RemacsTime

/-- Constant `LO_TIME_BITS` from time.rs: width of the low-order seconds field. -/
def LO_TIME_BITS : ℕ := 16

/-- Modelled from the spec: the platform safe-integer (fixnum) lower bound
used by `LispObject::fixnum_overflow`; the constant lives in `numbers.rs` /
`lisp.rs`, outside this excerpt.  On a 64-bit platform Emacs fixnums span
`[-2^61, 2^61 - 1]`. -/
def MOST_NEGATIVE_FIXNUM : ℤ := -(2 ^ 61)

/-- Modelled from the spec: the positive safe-integer (fixnum) bound. -/
def MOST_POSITIVE_FIXNUM : ℤ := 2 ^ 61 - 1

/-- Modelled from the spec: `LispObject::fixnum_overflow(n)` holds when `n`
falls outside the platform safe-integer (fixnum) range. -/
def fixnum_overflow (n : ℤ) : Bool :=
  decide (n < MOST_NEGATIVE_FIXNUM ∨ MOST_POSITIVE_FIXNUM < n)

/-- Rust's `/` on signed integers: quotient truncated toward zero. -/
def rustDiv (a b : ℤ) : ℤ := Int.tdiv a b

/-- Rust's `%` on signed integers: remainder carrying the dividend's sign. -/
def rustMod (a b : ℤ) : ℤ := Int.tmod a b

/-- Struct `lisp_time` (the `LispTime` alias) from remacs: `hi : EmacsInt`,
`lo us ps : c_int`, all modelled as `ℤ`. -/
structure LispTime where
  hi : ℤ
  lo : ℤ
  us : ℤ
  ps : ℤ
deriving DecidableEq

/-- The subset of `LispObject` shapes that the time subsystem inspects:
nil, fixnums, floats (modelled over `ℚ`) and cons cells. -/
inductive LispObject where
  | nil : LispObject
  | fixnum : ℤ → LispObject
  | float : ℚ → LispObject
  | cons : LispObject → LispObject → LispObject
deriving DecidableEq

/-- Predicate `LispObject::is_fixnum`. -/
def LispObject.is_fixnum : LispObject → Bool
  | .fixnum _ => true
  | _ => false

/-- Whether the object is a float (`LispObject::as_float().is_some()`). -/
def LispObject.is_float : LispObject → Bool
  | .float _ => true
  | _ => false

/-- Whether the object is a cons cell (`LispObject::as_cons().is_some()`). -/
def LispObject.is_cons : LispObject → Bool
  | .cons _ _ => true
  | _ => false

/-- Predicate `LispObject::is_not_nil`. -/
def LispObject.is_not_nil : LispObject → Bool
  | .nil => false
  | _ => true

/-- Build a proper Lisp list from a Lean list of objects. -/
def lispList : List LispObject → LispObject
  | [] => .nil
  | x :: xs => .cons x (lispList xs)

/-- Function `hi_time` from time.rs: the upper part of a `time_t` (everything above the
bottom 16 bits), via arithmetic right shift.  The source additionally aborts
through `time_overflow()` when the shifted value overflows the fixnum range;
`hi_time_no_overflow` below shows that this cannot fire for any value in the
`time_t` (`i64`) range, so the abort is not modelled. -/
def hi_time (t : ℤ) : ℤ := t >>> LO_TIME_BITS

/-- Function `lo_time` from time.rs: `t & ((1 << LO_TIME_BITS) - 1)`, i.e. the low 16
bits, equal to the Euclidean remainder modulo `2^16`. -/
def lo_time (t : ℤ) : ℤ := t % 2 ^ LO_TIME_BITS

/-- Result record of `disassemble_lisp_time` (the source writes `high`, `low`,
`usec`, `psec` through out-pointers and returns `len`; on failure, `len = 0`,
the source leaves the out-parameters unwritten and every caller ignores
them). -/
structure DisassembledTime where
  len : ℤ
  high : LispObject
  low : LispObject
  usec : LispObject
  psec : LispObject
deriving DecidableEq

/-- Function `disassemble_lisp_time` from time.rs: positionally bind the 2-, 3- or
4-element (or dotted, or bare-integer) time shape, returning the effective
length 2, 3 or 4, or 0 when the low-order seconds slot is not a fixnum. -/
def disassemble_lisp_time (specified_time : LispObject) : DisassembledTime :=
  match specified_time with
  | .cons car cdr =>
    let high := car
    let rest :=
      match cdr with
      | .cons low0 low_tail =>
        match low_tail with
        | .cons u rest1 =>
          match rest1 with
          | .cons p _ => (low0, u, p, (4 : ℤ))
          | _ => (low0, u, LispObject.fixnum 0, 3)
        | .nil => (low0, LispObject.fixnum 0, LispObject.fixnum 0, 2)
        | other => (low0, other, LispObject.fixnum 0, 3)
      | _ => (cdr, LispObject.fixnum 0, LispObject.fixnum 0, 2)
    if !rest.1.is_fixnum then ⟨0, high, rest.1, rest.2.1, rest.2.2.1⟩
    else ⟨rest.2.2.2, high, rest.1, rest.2.1, rest.2.2.1⟩
  | .fixnum n => ⟨2, .fixnum 0, .fixnum n, .fixnum 0, .fixnum 0⟩
  | other => ⟨4, .fixnum 0, other, .fixnum 0, .fixnum 0⟩

/-- Truncation toward zero of a rational, modelling Rust's `as i64` / `as i32`
float-to-integer cast for in-range values. -/
def qtrunc (q : ℚ) : ℤ := if 0 ≤ q then ⌊q⌋ else ⌈q⌉

/-- Function `decode_float_time` from time.rs, with the `f64` arithmetic modelled
exactly over `ℚ`.  Returns `none` for the out-of-range (`false`) outcome.
The source applies each borrow correction by mutating two fields under one
`if`; here each `if` is split per field with the identical condition. -/
def decode_float_time (t : ℚ) : Option LispTime :=
  let lo_multiplier : ℚ := 2 ^ LO_TIME_BITS
  let emacs_time_min : ℚ := (MOST_NEGATIVE_FIXNUM : ℚ) * lo_multiplier
  if ¬ (emacs_time_min ≤ t ∧ t < -emacs_time_min) then none
  else
    let small_t := t / lo_multiplier
    let hi := qtrunc small_t
    let t_sans_hi := t - (hi : ℚ) * lo_multiplier
    let lo := qtrunc t_sans_hi
    let fracps := (t_sans_hi - (lo : ℚ)) * 1000000000000
    let us := qtrunc (fracps / 1000000)
    let ps := qtrunc (fracps - (us : ℚ) * 1000000)
    let us1 := if ps < 0 then us - 1 else us
    let ps1 := if ps < 0 then ps + 1000000 else ps
    let lo1 := if us1 < 0 then lo - 1 else lo
    let us2 := if us1 < 0 then us1 + 1000000 else us1
    let hi1 := if lo1 < 0 then hi - 1 else hi
    let lo2 := if lo1 < 0 then lo1 + 2 ^ LO_TIME_BITS else lo1
    some ⟨hi1, lo2, us2, ps1⟩

/-- Outcome of `decode_time_components`: `ok` is the source's return value 1
(with the converted time written through `result`); `wrongType` is 0; and
`outOfRange` is -1. -/
inductive DecodeOutcome where
  | ok : LispTime → DecodeOutcome
  | wrongType : DecodeOutcome
  | outOfRange : DecodeOutcome
deriving DecidableEq

/-- Function `decode_time_components` from time.rs, for a non-null `result` and null
`dresult`.  `now = (tv_sec, tv_nsec)` is the timespec sampled by
`current_timespec()` in the nil branch. -/
def decode_time_components (now : ℤ × ℤ) (high low usec psec : LispObject) :
    DecodeOutcome :=
  match high, usec, psec with
  | .fixnum hi0, .fixnum us0, .fixnum ps0 =>
    match low with
    | .fixnum lo0 =>
      let us1 := if rustMod ps0 1000000 < 0 then us0 + (rustDiv ps0 1000000 - 1) else us0
      let lo1 := if rustMod us1 1000000 < 0 then lo0 + (rustDiv us1 1000000 - 1) else lo0
      let hi1 := hi0 + (lo1 >>> LO_TIME_BITS)
      let ps1 := if rustMod ps0 1000000 < 0 then rustMod ps0 1000000 + 1000000
                 else rustMod ps0 1000000
      let us2 := if rustMod us1 1000000 < 0 then rustMod us1 1000000 + 1000000
                 else rustMod us1 1000000
      let lo2 := lo1 % 2 ^ LO_TIME_BITS
      if fixnum_overflow hi1 then .outOfRange
      else .ok ⟨hi1, lo2, us2, ps1⟩
    | .float t =>
      match decode_float_time t with
      | some tv => .ok tv
      | none => .outOfRange
    | .nil =>
      .ok ⟨hi_time now.1, lo_time now.1, rustDiv now.2 1000, rustMod now.2 1000 * 1000⟩
    | .cons _ _ => .wrongType
  | _, _, _ => .wrongType

/-- The two raised error kinds of the subsystem: `invalid_time()` signals
an invalid time specification, `time_overflow()` an unrepresentable time. -/
inductive TimeError where
  | invalidTime : TimeError
  | overflow : TimeError
deriving DecidableEq

instance {e a : Type} [DecidableEq e] [DecidableEq a] :
    DecidableEq (Except e a) := fun x y =>
  match x, y with
  | .error u, .error v =>
    if h : u = v then .isTrue (by rw [h]) else .isFalse (by simp [h])
  | .ok u, .ok v =>
    if h : u = v then .isTrue (by rw [h]) else .isFalse (by simp [h])
  | .error _, .ok _ => .isFalse (by simp)
  | .ok _, .error _ => .isFalse (by simp)

/-- Function `lisp_time_struct` from time.rs: disassemble, then decode; a zero length
raises `invalid_time`, and `check_time_validity` maps decode outcome 0 to
`invalid_time` and -1 to `time_overflow`. -/
def lisp_time_struct (now : ℤ × ℤ) (specified_time : LispObject) :
    Except TimeError (LispTime × ℤ) :=
  let d := disassemble_lisp_time specified_time
  if d.len = 0 then .error .invalidTime
  else
    match decode_time_components now d.high d.low d.usec d.psec with
    | .ok t => .ok (t, d.len)
    | .wrongType => .error .invalidTime
    | .outOfRange => .error .overflow

/-- Function `time_add` from time.rs: per-field sum, then upward carry propagation. -/
def time_add (ta tb : LispTime) : LispTime :=
  let hi := ta.hi + tb.hi
  let lo := ta.lo + tb.lo
  let us := ta.us + tb.us
  let ps := ta.ps + tb.ps
  let us1 := us + (if 1000000 ≤ ps then 1 else 0)
  let ps1 := ps - (if 1000000 ≤ ps then 1000000 else 0)
  let lo1 := lo + (if 1000000 ≤ us1 then 1 else 0)
  let us2 := us1 - (if 1000000 ≤ us1 then 1000000 else 0)
  let hi1 := hi + (if 2 ^ LO_TIME_BITS ≤ lo1 then 1 else 0)
  let lo2 := lo1 - (if 2 ^ LO_TIME_BITS ≤ lo1 then (1 : ℤ) else 0) * 2 ^ LO_TIME_BITS
  ⟨hi1, lo2, us2, ps1⟩

/-- Function `time_subtract` from time.rs: per-field difference, then downward borrow
propagation. -/
def time_subtract (ta tb : LispTime) : LispTime :=
  let hi := ta.hi - tb.hi
  let lo := ta.lo - tb.lo
  let us := ta.us - tb.us
  let ps := ta.ps - tb.ps
  let us1 := us - (if ps < 0 then 1 else 0)
  let ps1 := ps + (if ps < 0 then 1000000 else 0)
  let lo1 := lo - (if us1 < 0 then 1 else 0)
  let us2 := us1 + (if us1 < 0 then 1000000 else 0)
  let hi1 := hi - (if lo1 < 0 then 1 else 0)
  let lo2 := lo1 + (if lo1 < 0 then (1 : ℤ) else 0) * 2 ^ LO_TIME_BITS
  ⟨hi1, lo2, us2, ps1⟩

/-- The output-tuple construction inlined at the end of `time_arith` in
time.rs, extracted as a function of the computed time and `max_len`. -/
def encode_time (t : LispTime) (max_len : ℤ) : LispObject :=
  let val := LispObject.cons (.fixnum t.ps) .nil
  let val1 := if max_len = 3 then LispObject.cons (.fixnum t.us) val else val
  let val2 := if max_len = 2 then
      LispObject.cons (.fixnum t.hi) (LispObject.cons (.fixnum t.lo) val1)
    else val1
  val2

/-- Function `time_arith` from time.rs: decode both operands (errors propagate as the
raised `invalid_time` / `time_overflow`), apply `op`, check the result's `hi`
against the fixnum range, and build the output tuple from
`max_len = max alen blen`. -/
def time_arith (now : ℤ × ℤ) (a b : LispObject)
    (op : LispTime → LispTime → LispTime) : Except TimeError LispObject :=
  match lisp_time_struct now a with
  | .error e => .error e
  | .ok (ta, alen) =>
    match lisp_time_struct now b with
    | .error e => .error e
    | .ok (tb, blen) =>
      let t := op ta tb
      if fixnum_overflow t.hi then .error .overflow
      else .ok (encode_time t (max alen blen))

/-- Function `lisp_to_timespec` from time.rs: the source guard is
`t.hi < (1 >> LO_TIME_BITS)`, with `1 >> 16 = 0`; the sentinel pair
`(tv_sec, tv_nsec) = (0, -1)` marks an invalid timespec. -/
def lisp_to_timespec (t : LispTime) : ℤ × ℤ :=
  if t.hi < ((1 : ℤ) >>> LO_TIME_BITS) then (0, -1)
  else (t.hi * 2 ^ LO_TIME_BITS + t.lo, t.us * 1000 + rustDiv t.ps 1000)

/-- The field-range invariants of a normalized time value (§3 of the spec):
`lo`, `us`, `ps` non-negative and below their radixes. -/
def Normalized (t : LispTime) : Prop :=
  0 ≤ t.lo ∧ t.lo < 2 ^ LO_TIME_BITS ∧
  0 ≤ t.us ∧ t.us < 1000000 ∧
  0 ≤ t.ps ∧ t.ps < 1000000

instance (t : LispTime) : Decidable (Normalized t) := by
  unfold Normalized LO_TIME_BITS
  infer_instance

/-- The exact value of a time in picoseconds. -/
def timeToPs (t : LispTime) : ℤ :=
  ((t.hi * 2 ^ LO_TIME_BITS + t.lo) * 1000000 + t.us) * 1000000 + t.ps

/-- Numeral form of the low-field radix. -/
lemma pow_lo_time_bits : (2 : ℤ) ^ LO_TIME_BITS = 65536 := by norm_num [LO_TIME_BITS]

/-- The skipped fixnum-overflow check inside `hi_time` cannot fire for any
value in the `time_t` (`i64`) range. -/
lemma hi_time_no_overflow (s : ℤ) (h1 : -(2 ^ 63) ≤ s) (h2 : s < 2 ^ 63) :
    fixnum_overflow (hi_time s) = false := by
  unfold fixnum_overflow hi_time MOST_NEGATIVE_FIXNUM MOST_POSITIVE_FIXNUM
  rw [Int.shiftRight_eq_div_pow]
  norm_num [LO_TIME_BITS]
  omega

/-- Negating the dividend negates the truncating remainder. -/
lemma tmod_neg_numerator (a b : ℤ) : Int.tmod (-a) b = -Int.tmod a b := by
  rw [Int.tmod_def, Int.tmod_def, Int.neg_tdiv]
  ring

/-- Range facts for Rust's `%`: the remainder lies strictly between `-b` and
`b`, and is non-negative for a non-negative dividend. -/
lemma rustMod_range (a b : ℤ) (hb : 0 < b) :
    -b < rustMod a b ∧ rustMod a b < b ∧ (0 ≤ a → 0 ≤ rustMod a b) := by
  unfold rustMod
  rcases le_or_lt 0 a with h | h
  · have hn := Int.tmod_nonneg b h
    have hl := Int.tmod_lt_of_pos a hb
    exact ⟨by omega, hl, fun _ => hn⟩
  · have hn := Int.tmod_nonneg b (by omega : (0 : ℤ) ≤ -a)
    have hl := Int.tmod_lt_of_pos (-a) hb
    have he := tmod_neg_numerator a b
    refine ⟨by omega, by omega, by omega⟩

/-- The final reduction step of `decode_time_components` lands a field in
`[0, 1000000)` regardless of the input. -/
lemma reduce_range (x : ℤ) :
    0 ≤ (if rustMod x 1000000 < 0 then rustMod x 1000000 + 1000000
         else rustMod x 1000000) ∧
    (if rustMod x 1000000 < 0 then rustMod x 1000000 + 1000000
     else rustMod x 1000000) < 1000000 := by
  have h := rustMod_range x 1000000 (by norm_num)
  split <;> omega

/-- Truncation of a non-negative rational is its floor. -/
lemma qtrunc_nonneg_spec {q : ℚ} (h : 0 ≤ q) :
    (qtrunc q : ℚ) ≤ q ∧ q < (qtrunc q : ℚ) + 1 ∧ 0 ≤ qtrunc q := by
  unfold qtrunc
  rw [if_pos h]
  exact ⟨Int.floor_le q, Int.lt_floor_add_one q, Int.floor_nonneg.mpr h⟩

/-- Truncation of a non-positive rational is its ceiling. -/
lemma qtrunc_nonpos_spec {q : ℚ} (h : q ≤ 0) :
    q ≤ (qtrunc q : ℚ) ∧ (qtrunc q : ℚ) < q + 1 ∧ qtrunc q ≤ 0 := by
  unfold qtrunc
  by_cases h0 : 0 ≤ q
  · have hq : q = 0 := le_antisymm h h0
    subst hq
    rw [if_pos le_rfl]
    norm_num
  · rw [if_neg h0]
    refine ⟨Int.le_ceil q, Int.ceil_lt_add_one q, Int.ceil_le.mpr ?_⟩
    exact_mod_cast h

/-- Removing `c` times the truncated quotient from a non-negative `t` leaves a
remainder in `[0, c)`. -/
lemma qtrunc_div_scale_nonneg {t c : ℚ} (hc : 0 < c) (ht : 0 ≤ t) :
    0 ≤ t - (qtrunc (t / c) : ℚ) * c ∧ t - (qtrunc (t / c) : ℚ) * c < c := by
  obtain ⟨e1, e2, _⟩ := qtrunc_nonneg_spec (div_nonneg ht hc.le)
  constructor
  · have := (le_div_iff₀ hc).mp e1
    linarith
  · have := (div_lt_iff₀ hc).mp e2
    linarith

/-- Removing `c` times the truncated quotient from a non-positive `t` leaves a
remainder in `(-c, 0]`. -/
lemma qtrunc_div_scale_nonpos {t c : ℚ} (hc : 0 < c) (ht : t ≤ 0) :
    -c < t - (qtrunc (t / c) : ℚ) * c ∧ t - (qtrunc (t / c) : ℚ) * c ≤ 0 := by
  have hd : t / c ≤ 0 := div_nonpos_of_nonpos_of_nonneg ht hc.le
  obtain ⟨e1, e2, _⟩ := qtrunc_nonpos_spec hd
  constructor
  · have h3 : (qtrunc (t / c) : ℚ) - 1 < t / c := by linarith
    have := (lt_div_iff₀ hc).mp h3
    linarith
  · have := (div_le_iff₀ hc).mp e1
    linarith

/-- The three borrow corrections at the end of `decode_float_time` normalize
any digit vector whose entries lie strictly within one radix of range. -/
lemma float_corrections_normalized (hi lo us ps : ℤ)
    (hlo1 : -65536 < lo) (hlo2 : lo < 65536)
    (hus1 : -1000000 < us) (hus2 : us < 1000000)
    (hps1 : -1000000 < ps) (hps2 : ps < 1000000) :
    Normalized (
      let us1 := if ps < 0 then us - 1 else us
      let ps1 := if ps < 0 then ps + 1000000 else ps
      let lo1 := if us1 < 0 then lo - 1 else lo
      let us2 := if us1 < 0 then us1 + 1000000 else us1
      let hi1 := if lo1 < 0 then hi - 1 else hi
      let lo2 := if lo1 < 0 then lo1 + 2 ^ LO_TIME_BITS else lo1
      (⟨hi1, lo2, us2, ps1⟩ : LispTime)) := by
  unfold Normalized
  dsimp only
  simp only [pow_lo_time_bits]
  split_ifs <;> omega

/-- Every time value produced by `decode_float_time` satisfies the
field-range invariants. -/
lemma decode_float_time_normalized (t : ℚ) (tv : LispTime)
    (h : decode_float_time t = some tv) : Normalized tv := by
  simp only [decode_float_time] at h
  split at h
  · exact absurd h (by simp)
  · rw [Option.some_inj] at h
    subst h
    have hc : (0 : ℚ) < 2 ^ LO_TIME_BITS := by positivity
    have hc6 : (0 : ℚ) < 1000000 := by norm_num
    have hpq : (2 : ℚ) ^ LO_TIME_BITS = 65536 := by norm_num [LO_TIME_BITS]
    rcases le_or_lt 0 t with ht | ht
    · -- non-negative input: all raw digits are non-negative and in range
      obtain ⟨h1, h2⟩ := qtrunc_div_scale_nonneg hc ht
      obtain ⟨l1, l2, l3⟩ := qtrunc_nonneg_spec h1
      have hf1 : (0 : ℚ) ≤
          (t - (qtrunc (t / 2 ^ LO_TIME_BITS) : ℚ) * 2 ^ LO_TIME_BITS -
            (qtrunc (t - (qtrunc (t / 2 ^ LO_TIME_BITS) : ℚ) * 2 ^ LO_TIME_BITS) : ℚ)) *
            1000000000000 := by linarith
      have hf2 :
          (t - (qtrunc (t / 2 ^ LO_TIME_BITS) : ℚ) * 2 ^ LO_TIME_BITS -
            (qtrunc (t - (qtrunc (t / 2 ^ LO_TIME_BITS) : ℚ) * 2 ^ LO_TIME_BITS) : ℚ)) *
            1000000000000 < 1000000000000 := by linarith
      obtain ⟨p1, p2⟩ := qtrunc_div_scale_nonneg hc6 hf1
      obtain ⟨u1, u2, u3⟩ := qtrunc_nonneg_spec (div_nonneg hf1 hc6.le)
      obtain ⟨q1, q2, q3⟩ := qtrunc_nonneg_spec p1
      refine float_corrections_normalized _ _ _ _ ?_ ?_ ?_ ?_ ?_ ?_
      · omega
      · have hq : (qtrunc (t - (qtrunc (t / 2 ^ LO_TIME_BITS) : ℚ) * 2 ^ LO_TIME_BITS) : ℚ) <
            65536 := by linarith
        exact_mod_cast hq
      · omega
      · have hud : (t - (qtrunc (t / 2 ^ LO_TIME_BITS) : ℚ) * 2 ^ LO_TIME_BITS -
            (qtrunc (t - (qtrunc (t / 2 ^ LO_TIME_BITS) : ℚ) * 2 ^ LO_TIME_BITS) : ℚ)) *
            1000000000000 / 1000000 < 1000000 := by
          rw [div_lt_iff₀ hc6]
          linarith
        have hq : (qtrunc ((t - (qtrunc (t / 2 ^ LO_TIME_BITS) : ℚ) * 2 ^ LO_TIME_BITS -
            (qtrunc (t - (qtrunc (t / 2 ^ LO_TIME_BITS) : ℚ) * 2 ^ LO_TIME_BITS) : ℚ)) *
            1000000000000 / 1000000) : ℚ) < 1000000 := by linarith
        exact_mod_cast hq
      · omega
      · have hq : (qtrunc ((t - (qtrunc (t / 2 ^ LO_TIME_BITS) : ℚ) * 2 ^ LO_TIME_BITS -
            (qtrunc (t - (qtrunc (t / 2 ^ LO_TIME_BITS) : ℚ) * 2 ^ LO_TIME_BITS) : ℚ)) *
            1000000000000 -
            (qtrunc ((t - (qtrunc (t / 2 ^ LO_TIME_BITS) : ℚ) * 2 ^ LO_TIME_BITS -
              (qtrunc (t - (qtrunc (t / 2 ^ LO_TIME_BITS) : ℚ) * 2 ^ LO_TIME_BITS) : ℚ)) *
              1000000000000 / 1000000) : ℚ) * 1000000) : ℚ) < 1000000 := by linarith
        exact_mod_cast hq
    · -- negative input: all raw digits are non-positive, one radix from range
      obtain ⟨h1, h2⟩ := qtrunc_div_scale_nonpos hc ht.le
      obtain ⟨l1, l2, l3⟩ := qtrunc_nonpos_spec h2
      have hf2 : (t - (qtrunc (t / 2 ^ LO_TIME_BITS) : ℚ) * 2 ^ LO_TIME_BITS -
            (qtrunc (t - (qtrunc (t / 2 ^ LO_TIME_BITS) : ℚ) * 2 ^ LO_TIME_BITS) : ℚ)) *
            1000000000000 ≤ 0 := by linarith
      have hf1 : -1000000000000 <
          (t - (qtrunc (t / 2 ^ LO_TIME_BITS) : ℚ) * 2 ^ LO_TIME_BITS -
            (qtrunc (t - (qtrunc (t / 2 ^ LO_TIME_BITS) : ℚ) * 2 ^ LO_TIME_BITS) : ℚ)) *
            1000000000000 := by linarith
      obtain ⟨p1, p2⟩ := qtrunc_div_scale_nonpos hc6 hf2
      obtain ⟨u1, u2, u3⟩ := qtrunc_nonpos_spec
        (div_nonpos_of_nonpos_of_nonneg hf2 hc6.le)
      obtain ⟨q1, q2, q3⟩ := qtrunc_nonpos_spec p2
      refine float_corrections_normalized _ _ _ _ ?_ ?_ ?_ ?_ ?_ ?_
      · have hq : (-65536 : ℚ) <
            (qtrunc (t - (qtrunc (t / 2 ^ LO_TIME_BITS) : ℚ) * 2 ^ LO_TIME_BITS) : ℚ) := by
          linarith
        exact_mod_cast hq
      · omega
      · have hud : (-1000000 : ℚ) <
            (t - (qtrunc (t / 2 ^ LO_TIME_BITS) : ℚ) * 2 ^ LO_TIME_BITS -
              (qtrunc (t - (qtrunc (t / 2 ^ LO_TIME_BITS) : ℚ) * 2 ^ LO_TIME_BITS) : ℚ)) *
              1000000000000 / 1000000 := by
          rw [lt_div_iff₀ hc6]
          linarith
        have hq : (-1000000 : ℚ) <
            (qtrunc ((t - (qtrunc (t / 2 ^ LO_TIME_BITS) : ℚ) * 2 ^ LO_TIME_BITS -
              (qtrunc (t - (qtrunc (t / 2 ^ LO_TIME_BITS) : ℚ) * 2 ^ LO_TIME_BITS) : ℚ)) *
              1000000000000 / 1000000) : ℚ) := by linarith
        exact_mod_cast hq
      · omega
      · have hq : (-1000000 : ℚ) <
            (qtrunc ((t - (qtrunc (t / 2 ^ LO_TIME_BITS) : ℚ) * 2 ^ LO_TIME_BITS -
              (qtrunc (t - (qtrunc (t / 2 ^ LO_TIME_BITS) : ℚ) * 2 ^ LO_TIME_BITS) : ℚ)) *
              1000000000000 -
              (qtrunc ((t - (qtrunc (t / 2 ^ LO_TIME_BITS) : ℚ) * 2 ^ LO_TIME_BITS -
                (qtrunc (t - (qtrunc (t / 2 ^ LO_TIME_BITS) : ℚ) * 2 ^ LO_TIME_BITS) : ℚ)) *
                1000000000000 / 1000000) : ℚ) * 1000000) : ℚ) := by linarith
        exact_mod_cast hq
      · omega

/-- Operation `time_add` preserves the field-range invariants on normalized inputs. -/
lemma time_add_normalized (a b : LispTime)
    (ha : Normalized a) (hb : Normalized b) : Normalized (time_add a b) := by
  obtain ⟨a1, a2, a3, a4, a5, a6⟩ := ha
  obtain ⟨b1, b2, b3, b4, b5, b6⟩ := hb
  unfold time_add Normalized
  dsimp only
  simp only [pow_lo_time_bits] at *
  split_ifs <;> omega

/-- Operation `time_subtract` preserves the field-range invariants on normalized
inputs. -/
lemma time_subtract_normalized (a b : LispTime)
    (ha : Normalized a) (hb : Normalized b) : Normalized (time_subtract a b) := by
  obtain ⟨a1, a2, a3, a4, a5, a6⟩ := ha
  obtain ⟨b1, b2, b3, b4, b5, b6⟩ := hb
  unfold time_subtract Normalized
  dsimp only
  simp only [pow_lo_time_bits] at *
  split_ifs <;> omega

/-- The borrow chain of `time_subtract` preserves the represented value: the
result is always the exact mixed-radix difference. -/
lemma time_subtract_exact (a b : LispTime) :
    timeToPs (time_subtract a b) = timeToPs a - timeToPs b := by
  unfold time_subtract timeToPs
  dsimp only
  simp only [pow_lo_time_bits]
  split_ifs <;> ring

/-- The carry chain of `time_add` preserves the represented value: the result
is always the exact mixed-radix sum. -/
lemma time_add_exact (a b : LispTime) :
    timeToPs (time_add a b) = timeToPs a + timeToPs b := by
  unfold time_add timeToPs
  dsimp only
  simp only [pow_lo_time_bits]
  split_ifs <;> ring

/-- A float object is not a fixnum. -/
lemma float_not_fixnum (o : LispObject) (h : o.is_float = true) :
    o.is_fixnum = false := by
  cases o <;> simp_all [LispObject.is_float, LispObject.is_fixnum]

/-- C1: evaluation of the arithmetic entry point at a length-4 operand
`(0 1 0 0)` and a length-2 operand `2`.  The internal `max_len` is 4, but the
returned tuple is the single-element list `(ps)` — here `(0)` — rather than
the length-4 tuple `(hi lo us ps)` = `(0 3 0 0)` that the claim (and the
function's own documentation, which promises a time value) describes: the
independent `if max_len == n` tests drop the C `switch` fallthrough. -/
theorem time_arith_len4_result_is_singleton (now : ℤ × ℤ) :
    time_arith now (lispList [.fixnum 0, .fixnum 1, .fixnum 0, .fixnum 0])
        (.fixnum 2) time_add =
      .ok (.cons (.fixnum 0) .nil) := rfl

/-- C2: evaluation of `decode_time_components` at the spec's carry example
`(0, 0, 1_500_000, 0)`.  The claim (and the code's own comment) says the
over-range microseconds carry into `lo`, giving `hi=0, lo=1, us=500_000`;
the code only applies the carry when the remainder is negative, so the whole
second is dropped and the result is `hi=0, lo=0, us=500_000, ps=0`. -/
theorem decode_drops_positive_microsecond_carry (now : ℤ × ℤ) :
    decode_time_components now (.fixnum 0) (.fixnum 0) (.fixnum 1500000)
        (.fixnum 0) =
      .ok ⟨0, 0, 500000, 0⟩ := rfl

/-- C3 counterexample: encoding at effective length 2 does not emit the
two-element whole-seconds shape `(hi, lo)`; the trailing `ps` cell is always
present. -/
theorem encode_time_len2_not_two_element :
    encode_time ⟨0, 1, 2, 3⟩ 2 ≠
      LispObject.cons (.fixnum 0) (.cons (.fixnum 1) .nil) := by decide

/-- C3 (amended): the output construction always emits `ps`; it emits `us`
ahead of `ps` only when the effective length is exactly 3; and it emits
`hi`, `lo` ahead of the rest only when the effective length is 2.  So the
emitted shapes are `(hi lo ps)` at length 2, `(us ps)` at length 3 and the
single-element `(ps)` at length 4. -/
theorem encode_time_shapes (t : LispTime) :
    encode_time t 2 =
      .cons (.fixnum t.hi) (.cons (.fixnum t.lo) (.cons (.fixnum t.ps) .nil)) ∧
    encode_time t 3 = .cons (.fixnum t.us) (.cons (.fixnum t.ps) .nil) ∧
    encode_time t 4 = .cons (.fixnum t.ps) .nil := by
  refine ⟨?_, ?_, ?_⟩ <;> rfl

/-- C4: on normalized operands, `time_subtract` returns the exact mixed-radix
difference, and its trailing digits `lo`, `us`, `ps` are non-negative (and in
range) even when the represented value is negative. -/
theorem time_subtract_exact_and_trailing_nonneg (a b : LispTime)
    (ha : Normalized a) (hb : Normalized b) :
    timeToPs (time_subtract a b) = timeToPs a - timeToPs b ∧
    Normalized (time_subtract a b) :=
  ⟨time_subtract_exact a b, time_subtract_normalized a b ha hb⟩

/-- C4 witness: the concrete borrow example of the claim,
`subtract(decode((0,0,0,0)), decode((0,1,0,0)))` = `⟨-1, 65535, 0, 0⟩`. -/
theorem time_subtract_exact_and_trailing_nonneg_witness :
    (timeToPs (time_subtract ⟨0, 0, 0, 0⟩ ⟨0, 1, 0, 0⟩) =
        timeToPs ⟨0, 0, 0, 0⟩ - timeToPs ⟨0, 1, 0, 0⟩ ∧
      Normalized (time_subtract ⟨0, 0, 0, 0⟩ ⟨0, 1, 0, 0⟩)) ∧
    time_subtract ⟨0, 0, 0, 0⟩ ⟨0, 1, 0, 0⟩ = ⟨-1, 65535, 0, 0⟩ :=
  ⟨time_subtract_exact_and_trailing_nonneg ⟨0, 0, 0, 0⟩ ⟨0, 1, 0, 0⟩
      (by decide) (by decide),
    by decide⟩

/-- C5: the zero duration (the decode of the tuple `(0 0 0 0)`) is a
right identity of `time_add` on every normalized time value. -/
theorem time_add_zero_identity (t : LispTime) (now : ℤ × ℤ) (z : LispTime)
    (len : ℤ) (ht : Normalized t)
    (hz : lisp_time_struct now
        (lispList [.fixnum 0, .fixnum 0, .fixnum 0, .fixnum 0]) =
      .ok (z, len)) :
    time_add t z = t := by
  have hzeq : lisp_time_struct now
      (lispList [.fixnum 0, .fixnum 0, .fixnum 0, .fixnum 0]) =
      .ok (⟨0, 0, 0, 0⟩, 4) := rfl
  rw [hzeq] at hz
  injection hz with hz
  injection hz with hz1 hz2
  subst hz1
  obtain ⟨h1, h2, h3, h4, h5, h6⟩ := ht
  cases t with
  | mk hi lo us ps =>
    dsimp only at h1 h2 h3 h4 h5 h6
    simp only [pow_lo_time_bits] at h2
    unfold time_add
    dsimp only
    simp only [pow_lo_time_bits, LispTime.mk.injEq]
    split_ifs <;> omega

/-- C5 witness: the identity at the concrete normalized value `⟨5,6,7,8⟩`. -/
theorem time_add_zero_identity_witness :
    time_add ⟨5, 6, 7, 8⟩ ⟨0, 0, 0, 0⟩ = ⟨5, 6, 7, 8⟩ :=
  time_add_zero_identity ⟨5, 6, 7, 8⟩ (0, 0) ⟨0, 0, 0, 0⟩ 4 (by decide) rfl

/-- C6: whenever both operands decode successfully and the arithmetic
result's `hi` field falls outside the fixnum (safe-integer) range, the
arithmetic entry point fails with the raised overflow error and returns no
tuple. -/
theorem time_arith_overflow_error (now : ℤ × ℤ) (a b : LispObject)
    (ta tb : LispTime) (alen blen : ℤ)
    (op : LispTime → LispTime → LispTime)
    (hA : lisp_time_struct now a = .ok (ta, alen))
    (hB : lisp_time_struct now b = .ok (tb, blen))
    (hover : fixnum_overflow ((op ta tb).hi) = true) :
    time_arith now a b op = .error .overflow := by
  unfold time_arith
  rw [hA, hB]
  simp [hover]

/-- C6 witness: adding `(2^61 - 1, 0, 0, 0)` to itself drives `hi` above the
fixnum bound and yields the overflow error. -/
theorem time_arith_overflow_error_witness :
    time_arith (0, 0)
        (lispList [.fixnum (2 ^ 61 - 1), .fixnum 0, .fixnum 0, .fixnum 0])
        (lispList [.fixnum (2 ^ 61 - 1), .fixnum 0, .fixnum 0, .fixnum 0])
        time_add =
      .error .overflow :=
  time_arith_overflow_error (0, 0) _ _ ⟨2 ^ 61 - 1, 0, 0, 0⟩
    ⟨2 ^ 61 - 1, 0, 0, 0⟩ 4 4 time_add (by decide) (by decide) (by decide)

/-- C7: `decode_float_time` succeeds exactly on inputs in the symmetric range
`[MOST_NEGATIVE_FIXNUM * 2^16, -MOST_NEGATIVE_FIXNUM * 2^16)`, and fails with
the out-of-range outcome (`none`) on every input at or beyond those bounds. -/
theorem decode_float_time_range_characterization (t : ℚ) :
    ((∃ tv, decode_float_time t = some tv) ↔
      (MOST_NEGATIVE_FIXNUM : ℚ) * 2 ^ LO_TIME_BITS ≤ t ∧
        t < -((MOST_NEGATIVE_FIXNUM : ℚ) * 2 ^ LO_TIME_BITS)) ∧
    (decode_float_time t = none ↔
      ¬ ((MOST_NEGATIVE_FIXNUM : ℚ) * 2 ^ LO_TIME_BITS ≤ t ∧
        t < -((MOST_NEGATIVE_FIXNUM : ℚ) * 2 ^ LO_TIME_BITS))) := by
  unfold decode_float_time
  by_cases h : (MOST_NEGATIVE_FIXNUM : ℚ) * 2 ^ LO_TIME_BITS ≤ t ∧
      t < -((MOST_NEGATIVE_FIXNUM : ℚ) * 2 ^ LO_TIME_BITS)
  · simp [h]
  · simp [h]

/-- C8: decoding any cons-shaped time whose bound low-order seconds slot
holds a float fails with the type-mismatch outcome, reported as the distinct
zero-length result of `disassemble_lisp_time` rather than raised. -/
theorem disassemble_float_low_len_zero (st : LispObject)
    (hc : st.is_cons = true)
    (hf : (disassemble_lisp_time st).low.is_float = true) :
    (disassemble_lisp_time st).len = 0 := by
  cases st with
  | nil => simp [LispObject.is_cons] at hc
  | fixnum n => simp [LispObject.is_cons] at hc
  | float x => simp [LispObject.is_cons] at hc
  | cons car cdr =>
    cases cdr with
    | cons low0 low_tail =>
      cases low_tail with
      | cons u rest1 =>
        cases rest1 <;> cases low0 <;>
          simp_all [disassemble_lisp_time, LispObject.is_fixnum,
            LispObject.is_float]
      | nil =>
        cases low0 <;>
          simp_all [disassemble_lisp_time, LispObject.is_fixnum,
            LispObject.is_float]
      | fixnum m =>
        cases low0 <;>
          simp_all [disassemble_lisp_time, LispObject.is_fixnum,
            LispObject.is_float]
      | float y =>
        cases low0 <;>
          simp_all [disassemble_lisp_time, LispObject.is_fixnum,
            LispObject.is_float]
    | nil =>
      simp_all [disassemble_lisp_time, LispObject.is_fixnum,
        LispObject.is_float]
    | fixnum m =>
      simp_all [disassemble_lisp_time, LispObject.is_fixnum,
        LispObject.is_float]
    | float y =>
      simp_all [disassemble_lisp_time, LispObject.is_fixnum,
        LispObject.is_float]

/-- C8 witness: the claim's concrete shape `(0, 1.5, 0, 0)` yields the
zero-length outcome. -/
theorem disassemble_float_low_len_zero_witness :
    (disassemble_lisp_time
        (lispList [.fixnum 0, .float (3 / 2), .fixnum 0, .fixnum 0])).len = 0 :=
  disassemble_float_low_len_zero _ (by decide) (by decide)

/-- C9: every successfully constructed time value satisfies the field-range
invariants `0 ≤ lo < 65536`, `0 ≤ us < 1_000_000`, `0 ≤ ps < 1_000_000`:
whatever `decode_time_components` returns through its `ok` outcome (the
integer path, the float path, and the current-time path, the last under the
current-time source's guarantee `0 ≤ tv_nsec < 10^9`), and the results of
`time_add` / `time_subtract` on normalized operands. -/
theorem constructed_time_values_normalized (s ns : ℤ)
    (hns0 : 0 ≤ ns) (hns1 : ns < 1000000000) :
    (∀ high low usec psec t,
        decode_time_components (s, ns) high low usec psec = .ok t →
          Normalized t) ∧
    (∀ a b, Normalized a → Normalized b →
        Normalized (time_add a b) ∧ Normalized (time_subtract a b)) := by
  constructor
  · intro high low usec psec t h
    rcases high with _ | hi0 | xh | ⟨ch, dh⟩ <;>
      rcases usec with _ | us0 | xu | ⟨cu, du⟩ <;>
        rcases psec with _ | ps0 | xp | ⟨cp, dp⟩ <;>
          dsimp only [decode_time_components] at h <;>
            try exact absurd h (by simp)
    rcases low with _ | lo0 | x | ⟨c, d⟩
    · -- nil: the current-time sample
      dsimp only at h
      injection h with h2
      subst h2
      have hm := (rustMod_range ns 1000 (by norm_num)).2
      have hd : rustDiv ns 1000 = ns / 1000 :=
        Int.tdiv_eq_ediv hns0 (by norm_num)
      unfold Normalized
      dsimp only
      refine ⟨Int.emod_nonneg _ (ne_of_gt (by positivity)),
        Int.emod_lt_of_pos _ (by positivity),
        Int.tdiv_nonneg hns0 (by norm_num), ?_, ?_, ?_⟩
      · rw [hd]
        omega
      · have h1 := hm.2 hns0
        omega
      · have h1 := hm.1
        have h2 := hm.2 hns0
        omega
    · -- fixnum: the integer normalization path
      dsimp only at h
      rcases ite_eq_iff.mp h with ⟨hc, habs⟩ | ⟨hc, hok⟩
      · exact absurd habs (by simp)
      · injection hok with h2
        subst h2
        exact ⟨Int.emod_nonneg _ (ne_of_gt (by positivity)),
          Int.emod_lt_of_pos _ (by positivity),
          (reduce_range _).1, (reduce_range _).2,
          (reduce_range _).1, (reduce_range _).2⟩
    · -- float: the float-conversion path
      dsimp only at h
      cases hdf : decode_float_time x with
      | none =>
        rw [hdf] at h
        exact absurd h (by simp)
      | some tv =>
        rw [hdf] at h
        dsimp only at h
        injection h with h2
        subst h2
        exact decode_float_time_normalized x _ hdf
    · -- cons in the low slot: rejected
      exact absurd h (by simp)
  · intro a b ha hb
    exact ⟨time_add_normalized a b ha hb, time_subtract_normalized a b ha hb⟩

/-- C9 witness: the invariants at concrete normalized operands. -/
theorem constructed_time_values_normalized_witness :
    Normalized (time_add ⟨3, 5, 6, 7⟩ ⟨0, 65535, 999999, 999999⟩) ∧
    Normalized (time_subtract ⟨3, 5, 6, 7⟩ ⟨0, 65535, 999999, 999999⟩) :=
  (constructed_time_values_normalized 0 0 le_rfl (by norm_num)).2
    ⟨3, 5, 6, 7⟩ ⟨0, 65535, 999999, 999999⟩ (by decide) (by decide)

/-- C10: for every time value with a negative `hi` field, the conversion to
an OS timespec returns the sentinel pair `(tv_sec, tv_nsec) = (0, -1)`
instead of a pre-epoch timestamp (the guard `t.hi < (1 >> LO_TIME_BITS)` is
`t.hi < 0`). -/
theorem lisp_to_timespec_negative_hi_sentinel (t : LispTime) (h : t.hi < 0) :
    lisp_to_timespec t = (0, -1) := by
  have h0 : ((1 : ℤ) >>> LO_TIME_BITS) = 0 := by decide
  unfold lisp_to_timespec
  rw [h0, if_pos h]

/-- C10 witness: the sentinel at the normalized representation of
minus one second. -/
theorem lisp_to_timespec_negative_hi_sentinel_witness :
    lisp_to_timespec ⟨-1, 65535, 0, 0⟩ = (0, -1) :=
  lisp_to_timespec_negative_hi_sentinel ⟨-1, 65535, 0, 0⟩ (by decide)

end RemacsTime
